import Mathlib

/-!
link-checker: job store, URL validation, link verification and fan-out

A shallow embedding of the Go packages `storage` (memory.go) and
`linkworker` (helpers.go, worker.go, handler.go).

* The Go map `Workers map[string][]LinkError` is a partial function from
  job ids to lists of records.  Every mutating method returns the store
  after the call together with the returned `error` (`none` is `nil`).
* The standard library (`net/url`, `encoding/json`, `net/http`, the html
  tokenizer, `uuid`) is not part of the repository: what it returns is a
  parameter of the embedded functions.
* The goroutines of `Worker.ProcessURL` are a transition system: one atomic
  step per completed link check, per receive of the draining loop, and for
  the close of the result channel.
-/

namespace LinkChecker

/-! ## Data model (worker.go, memory.go) -/

/-- The record `LinkError` of worker.go: a failed link. -/
structure LinkError where
  URL : String
  Status : Int
  Timeout : Bool
deriving DecidableEq, Repr

/-- The package-level error sentinels of memory.go. -/
inductive StorageErr where
  | WorkerNotFoundErr
  | DuplicateWorkerErr
deriving DecidableEq, Repr

/-- The text each sentinel was built from with `errors.New`. -/
def StorageErr.Error : StorageErr → String
  | .WorkerNotFoundErr => "no worker exists with that id"
  | .DuplicateWorkerErr => "worker already exists with that id"

/-- The struct `MemoryStorage`: the map from job id to accumulated failures. -/
structure MemoryStorage where
  Workers : String → Option (List LinkError)

/-- The constructor `NewMemoryStorage`: the empty map. -/
def NewMemoryStorage : MemoryStorage :=
  ⟨fun _ => none⟩

/-- The method `MemoryStorage.AddWorker`. -/
def AddWorker (s : MemoryStorage) (workerID : String) : MemoryStorage × Option StorageErr :=
  match s.Workers workerID with
  | some _ => (s, some StorageErr.DuplicateWorkerErr)
  | none => (⟨fun k => if k = workerID then some [] else s.Workers k⟩, none)

/-- The method `MemoryStorage.RemoveWorker`. -/
def RemoveWorker (s : MemoryStorage) (workerID : String) : MemoryStorage × Option StorageErr :=
  match s.Workers workerID with
  | none => (s, some StorageErr.WorkerNotFoundErr)
  | some _ => (⟨fun k => if k = workerID then none else s.Workers k⟩, none)

/-- The method `MemoryStorage.GetWorkerResults`: the slice (nil on error) and the error. -/
def GetWorkerResults (s : MemoryStorage) (workerID : String) : List LinkError × Option StorageErr :=
  match s.Workers workerID with
  | none => ([], some StorageErr.WorkerNotFoundErr)
  | some results => (results, none)

/-- The method `MemoryStorage.AddLinkError`. -/
def AddLinkError (s : MemoryStorage) (workerID : String) (linkError : LinkError) :
    MemoryStorage × Option StorageErr :=
  match s.Workers workerID with
  | none => (s, some StorageErr.WorkerNotFoundErr)
  | some results =>
    (⟨fun k => if k = workerID then some (results ++ [linkError]) else s.Workers k⟩, none)

/-! ## URL helpers (helpers.go) -/

/-- The fields of `url.URL` that the standard library fills in; the repository reads
`Scheme` and `Host`. -/
structure URL where
  Scheme : String
  Opaque : String
  Host : String
  Path : String
  RawQuery : String
  Fragment : String
deriving DecidableEq, Repr

/-- The functions of package `net/url` that helpers.go calls; they are not part of the
repository, so they are a parameter. `Parse` returns the URL or the text of the error. -/
structure NetURL where
  Parse : String → Except String URL
  ResolveReference : URL → URL → URL
  String : URL → String

/-- The message of the error returned for an input that does not parse. -/
def errInvalidURL (input : String) : String :=
  "\"" ++ input ++ "\" is not a valid url"

/-- The message of the error returned for an input without scheme or host. -/
def errNotAbsolute (input : String) : String :=
  "\"" ++ input ++ "\" must be an absolute url"

/-- The message of the error returned for a scheme other than http and https. -/
def errUnsupportedScheme (input : String) : String :=
  "\"" ++ input ++ "\" must use http or https"

/-- The function `toAbsolute` of helpers.go. -/
def toAbsolute (lib : NetURL) (link base : String) : String :=
  match lib.Parse link with
  | .error _ => ""
  | .ok uri =>
    match lib.Parse base with
    | .error _ => ""
    | .ok baseUrl => lib.String (lib.ResolveReference baseUrl uri)

/-- The function `validateURL` of helpers.go: the parsed URL, or the error message. -/
def validateURL (lib : NetURL) (input : String) : Except String URL :=
  match lib.Parse input with
  | .error _ => .error (errInvalidURL input)
  | .ok u =>
    if u.Scheme = "" ∨ u.Host = "" then .error (errNotAbsolute input)
    else if u.Scheme ≠ "http" ∧ u.Scheme ≠ "https" then .error (errUnsupportedScheme input)
    else .ok u

/-! ## The worker (worker.go) -/

/-- The constant `DefaultTimeoutValue`. -/
def DefaultTimeoutValue : Int := 5

/-- The constant `MaximumTimeoutValue`. -/
def MaximumTimeoutValue : Int := 20

/-- The constant `time.Second`, in nanoseconds. -/
def Second : Int := 1000000000

/-- Two's-complement wrap of an integer to 64 bits (Go `int64` arithmetic). -/
def wrapInt64 (x : Int) : Int :=
  (x + 2 ^ 63) % 2 ^ 64 - 2 ^ 63

/-- The part of `http.Client` the worker sets: the timeout, a `time.Duration` in nanoseconds. -/
structure HttpClient where
  Timeout : Int
deriving DecidableEq, Repr

/-- The struct `Worker`; `httpClient` is `none` for the nil pointer. -/
structure Worker where
  ID : String
  URL : String
  LinkTimeout : Int
  httpClient : Option HttpClient
  urlBasePath : String
deriving DecidableEq, Repr

/-- The zero value of `Worker` (`var worker Worker` in the handler). -/
def Worker.zero : Worker :=
  ⟨"", "", 0, none, ""⟩

/-- The token types of the html tokenizer. -/
inductive TokenType where
  | ErrorToken
  | TextToken
  | StartTagToken
  | EndTagToken
  | SelfClosingTagToken
  | CommentToken
  | DoctypeToken
deriving DecidableEq, Repr

/-- An attribute of an html token. -/
structure Attribute where
  Key : String
  Val : String
deriving DecidableEq, Repr

/-- An html token: its type (the Go field is named Type) and its attributes. -/
structure Token where
  Typ : TokenType
  Attr : List Attribute
deriving DecidableEq, Repr

/-- A completed HTTP response: the status code and the tokens its body yields, one per
call of `tokenizer.Next` (after the last one the tokenizer reports `ErrorToken`). -/
structure Response where
  StatusCode : Int
  Body : List Token
deriving DecidableEq, Repr

/-- What `httpClient.Get` hands back: a response, an error of type `*url.Error` (with
what its `Timeout()` reports), or an error of another type. -/
inductive GetResult where
  | response (resp : Response)
  | urlError (timeout : Bool)
  | otherError
deriving DecidableEq, Repr

/-- The method `Worker.verifyURL`, given the outcome of the GET on `destination`:
the failure (`none` for nil) and the response. -/
def verifyURL (destination : String) (got : GetResult) : Option LinkError × Option Response :=
  match got with
  | .urlError timeout => (some ⟨destination, 0, timeout⟩, none)
  | .otherError => (some ⟨destination, 0, false⟩, none)
  | .response resp =>
    let code := resp.StatusCode
    if code ≥ 200 ∧ code < 300 then (none, some resp)
    else (some ⟨destination, code, false⟩, some resp)

/-- The method `Worker.ValidateWorkerRequest`. `Decode` is the effect of
`json.NewDecoder(r.Body).Decode(w)` on the worker and the text of its error, `uuidNew`
is what `uuid.New()` returns. The result is the worker after the call and the error. -/
def ValidateWorkerRequest (lib : NetURL) (Decode : Worker → Worker × Option String)
    (uuidNew : String) (w : Worker) : Worker × Option String :=
  match Decode w with
  | (w1, some err) => (w1, some ("failed to parse JSON input - error: " ++ err))
  | (w1, none) =>
    let w2 : Worker :=
      if w1.LinkTimeout ≤ 0 ∨ w1.LinkTimeout > MaximumTimeoutValue then
        { w1 with LinkTimeout := DefaultTimeoutValue }
      else w1
    match validateURL lib w2.URL with
    | .error err => (w2, some err)
    | .ok destinationURL =>
      ({ w2 with
          ID := uuidNew
          urlBasePath := destinationURL.Scheme ++ "://" ++ destinationURL.Host
          httpClient := some ⟨wrapInt64 (Second * w2.LinkTimeout)⟩ }, none)

/-- The links scraped from the attributes of one token: every `href` value that
validates after being made absolute. -/
def hrefLinks (lib : NetURL) (urlBasePath : String) : List Attribute → List String
  | [] => []
  | attr :: rest =>
    if attr.Key = "href" then
      match validateURL lib (toAbsolute lib attr.Val urlBasePath) with
      | .ok link => lib.String link :: hrefLinks lib urlBasePath rest
      | .error _ => hrefLinks lib urlBasePath rest
    else hrefLinks lib urlBasePath rest

/-- The tokenizer loop of `ProcessURL`: it stops at the first `ErrorToken` and collects
links from start and end tags only. -/
def scrapeLinks (lib : NetURL) (urlBasePath : String) : List Token → List String
  | [] => []
  | token :: rest =>
    match token.Typ with
    | .ErrorToken => []
    | .StartTagToken => hrefLinks lib urlBasePath token.Attr ++ scrapeLinks lib urlBasePath rest
    | .EndTagToken => hrefLinks lib urlBasePath token.Attr ++ scrapeLinks lib urlBasePath rest
    | _ => scrapeLinks lib urlBasePath rest

/-- The state of one run of `ProcessURL`.
`fetched` logs the destinations `verifyURL` was called on; `pending` holds the link
goroutines that have not finished, each with the outcome its GET will have;
`resultPipe` is the content of the buffered channel, oldest first, `capacity` its
buffer size; `closed` says the channel was closed; `returned` says `ProcessURL`
returned. -/
structure ProcState where
  storage : MemoryStorage
  fetched : List String
  pending : List (String × GetResult)
  resultPipe : List LinkError
  capacity : Nat
  closed : Bool
  returned : Bool

/-- The second half of `ProcessURL` (from `wg.Add` on): the state right after the
channel is made and one goroutine per link is launched. -/
def fanOut (w : Worker) (tasks : List (String × GetResult)) (storage : MemoryStorage) :
    ProcState :=
  ⟨storage, [w.URL], tasks, [], tasks.length, false, false⟩

/-- The links paired with the outcome of the GET of their goroutine: `linkGet i` is
the outcome for the goroutine of the link at position `i`. -/
def linkTasks (linkGet : Nat → GetResult) (links : List String) : List (String × GetResult) :=
  links.enum.map (fun p => (p.2, linkGet p.1))

/-- The first half of `ProcessURL`: the root check, and either the early return or the
scraping of the body followed by the fan-out. `rootGet` is the outcome of the GET on
the root URL. On the early return no channel is made and no goroutine is launched: the
state is marked closed and returned, so that no step applies to it. -/
def ProcessURL (lib : NetURL) (w : Worker) (rootGet : GetResult) (linkGet : Nat → GetResult)
    (storage : MemoryStorage) : ProcState :=
  match verifyURL w.URL rootGet with
  | (some linkErr, _) =>
    ⟨(AddLinkError storage w.ID linkErr).1, [w.URL], [], [], 0, true, true⟩
  | (none, resp) =>
    let body : List Token :=
      match resp with
      | some r => r.Body
      | none => []
    fanOut w (linkTasks linkGet (scrapeLinks lib w.urlBasePath body)) storage

/-- The atomic steps of the goroutines of `ProcessURL`:
`finish i` is the goroutine at position `i` of `pending` completing `verifyURL` and
publishing its failure, `close` is the supervising goroutine closing the channel after
`wg.Wait()`, `recv` is one iteration (or the exit) of the `range resultPipe` loop. -/
inductive Event where
  | finish (i : Nat)
  | close
  | recv
deriving DecidableEq, Repr

/-- One step; `none` when the event cannot happen in this state (a goroutine that is
not there, a send on a full buffer, a wait or a receive that blocks). -/
def step (w : Worker) (st : ProcState) : Event → Option ProcState
  | .finish i =>
    match st.pending[i]? with
    | none => none
    | some (link, got) =>
      match (verifyURL link got).1 with
      | none =>
        some { st with pending := st.pending.eraseIdx i, fetched := st.fetched ++ [link] }
      | some linkErr =>
        if st.resultPipe.length < st.capacity then
          some { st with
                  pending := st.pending.eraseIdx i
                  fetched := st.fetched ++ [link]
                  resultPipe := st.resultPipe ++ [linkErr] }
        else none
  | .close =>
    if st.pending.isEmpty ∧ st.closed = false then some { st with closed := true } else none
  | .recv =>
    if st.returned then none
    else
      match st.resultPipe with
      | result :: rest =>
        some { st with storage := (AddLinkError st.storage w.ID result).1, resultPipe := rest }
      | [] => if st.closed then some { st with returned := true } else none

/-- A schedule: the events run one after the other; `none` if one cannot happen. -/
def run (w : Worker) (st : ProcState) : List Event → Option ProcState
  | [] => some st
  | e :: es =>
    match step w st e with
    | none => none
    | some st1 => run w st1 es

/-- The failures the tasks produce, in task order. -/
def failures (tasks : List (String × GetResult)) : List LinkError :=
  tasks.filterMap (fun t => (verifyURL t.1 t.2).1)

/-! ## Invariant and measure of the fan-out -/

/-- The invariant of a run of the fan-out for a job that held `old` in the store `s0`,
the tasks producing the failures `F`: the job holds `old` followed by the records
appended so far, which together with the channel content and the failures still to come
are a rearrangement of `F`; the other jobs are as in `s0`; the buffer has room for every
pending goroutine; the channel is closed only after the last goroutine, and the loop
exits only on the closed, drained channel. -/
def FanInv (w : Worker) (s0 : MemoryStorage) (old F : List LinkError) (st : ProcState) : Prop :=
  ∃ appended : List LinkError,
    st.storage.Workers w.ID = some (old ++ appended) ∧
    (appended ++ (st.resultPipe ++ failures st.pending)).Perm F ∧
    (∀ other, other ≠ w.ID → st.storage.Workers other = s0.Workers other) ∧
    st.resultPipe.length + st.pending.length ≤ st.capacity ∧
    (st.closed = true → st.pending = []) ∧
    (st.returned = true → st.closed = true ∧ st.resultPipe = [])

/-- An upper bound on the number of steps a state can still take. -/
def stepsLeft (st : ProcState) : Nat :=
  2 * st.pending.length + st.resultPipe.length + (if st.closed then 0 else 1) +
    (if st.returned then 0 else 1)

/-- The invariant on the checks made for the links `L`: `verifyURL` was called on the
root first, and the links checked since, together with the links of the goroutines
still pending, are a rearrangement of `L`. -/
def FetchInv (w : Worker) (L : List String) (st : ProcState) : Prop :=
  ∃ checked : List String,
    st.fetched = w.URL :: checked ∧ (checked ++ st.pending.map Prod.fst).Perm L

/-! ## The handler (handler.go) -/

/-- What `Handler.Create` leaves behind: the status written, the store, and the worker
handed to `go worker.ProcessURL`, if any. -/
structure CreateResult where
  status : Nat
  DB : MemoryStorage
  dispatched : Option Worker

/-- The method `Handler.Create`. -/
def Create (lib : NetURL) (Decode : Worker → Worker × Option String) (uuidNew : String)
    (DB : MemoryStorage) : CreateResult :=
  match ValidateWorkerRequest lib Decode uuidNew Worker.zero with
  | (_, some _) => ⟨400, DB, none⟩
  | (worker, none) => ⟨201, (AddWorker DB worker.ID).1, some worker⟩

/-! ## Sample inputs -/

/-- A table of what `url.Parse` answers on a few inputs, and a rendering of URLs;
used to instantiate theorems at concrete inputs only. -/
def sampleLib : NetURL where
  Parse := fun input =>
    if input = "https://www.google.com" then .ok ⟨"https", "", "www.google.com", "", "", ""⟩
    else if input = "this_is_not_a_valid_url" then .ok ⟨"", "", "", "this_is_not_a_valid_url", "", ""⟩
    else if input = "" then .ok ⟨"", "", "", "", "", ""⟩
    else if input = "mailto:a@example.com" then .ok ⟨"mailto", "a@example.com", "", "", "", ""⟩
    else if input = "ftp://example.com/file" then .ok ⟨"ftp", "", "example.com", "/file", "", ""⟩
    else .error "parse error"
  ResolveReference := fun _ ref => ref
  String := fun u => u.Scheme ++ "://" ++ u.Host ++ u.Path

/-- A decoder that sets the url and the timeout of the request body. -/
def sampleDecode (url : String) (timeout : Int) : Worker → Worker × Option String :=
  fun w => ({ w with URL := url, LinkTimeout := timeout }, none)

/-- A store holding one job `"job-1"` with one recorded failure; used to instantiate theorems. -/
def sampleStore : MemoryStorage :=
  ⟨fun k => if k = "job-1" then some [⟨"https://example.com/nope", 404, false⟩] else none⟩

/-- A validated worker for the root `https://example.com`. -/
def sampleWorker : Worker :=
  ⟨"job-1", "https://example.com", 5, some ⟨5000000000⟩, "https://example.com"⟩

/-- Four scraped links; the link `https://example.com/nope` occurs twice. -/
def sampleLinks : List String :=
  ["https://good.com", "https://example.com/nope", "https://example.com/slow",
   "https://example.com/nope"]

/-- The outcomes of the four link checks: the first answers 200, the third times out,
the other two answer 404. -/
def sampleLinkGet : Nat → GetResult :=
  fun i =>
    if i = 0 then .response ⟨200, []⟩
    else if i = 2 then .urlError true
    else .response ⟨404, []⟩

/-- A schedule in which the slowest link is published first and the draining loop runs
in between the goroutines. -/
def sampleSchedule : List Event :=
  [.finish 2, .finish 0, .recv, .finish 1, .finish 0, .close, .recv, .recv, .recv]

/-! ## Shared lemmas -/

/-- An append to an absent id fails with `WorkerNotFoundErr` and returns the store as is. -/
theorem AddLinkError_absent (s : MemoryStorage) (workerID : String)
    (linkError : LinkError) (h : s.Workers workerID = none) :
    AddLinkError s workerID linkError = (s, some StorageErr.WorkerNotFoundErr) := by
  simp [AddLinkError, h]

/-- An append to a present id adds the record at the end of its list. -/
theorem AddLinkError_present (s : MemoryStorage) (workerID : String) (linkError : LinkError)
    (results : List LinkError) (h : s.Workers workerID = some results) :
    (AddLinkError s workerID linkError).1.Workers workerID = some (results ++ [linkError]) ∧
    ∀ other, other ≠ workerID →
      (AddLinkError s workerID linkError).1.Workers other = s.Workers other := by
  refine ⟨by simp [AddLinkError, h], ?_⟩
  intro other hne
  simp [AddLinkError, h, hne]

/-- The element at a position, put in front of the list without that position, is a
rearrangement of the list. -/
theorem perm_cons_eraseIdx {α : Type} :
    ∀ (l : List α) (i : Nat) (x : α), l[i]? = some x → (x :: l.eraseIdx i).Perm l
  | [], i, x, h => by simp at h
  | a :: l, 0, x, h => by
    simp at h
    subst h
    simp
  | a :: l, i + 1, x, h => by
    simp at h
    have ih := perm_cons_eraseIdx l i x h
    simp only [List.eraseIdx_cons_succ]
    exact (List.Perm.swap a x _).trans (ih.cons a)

/-- The failures of a task list with one task taken out, when that task succeeds. -/
theorem failures_eraseIdx_none (tasks : List (String × GetResult)) (i : Nat) (link : String)
    (got : GetResult) (hg : tasks[i]? = some (link, got))
    (hv : (verifyURL link got).1 = none) :
    (failures (tasks.eraseIdx i)).Perm (failures tasks) := by
  have hp := (perm_cons_eraseIdx tasks i (link, got) hg).filterMap
    (fun t => (verifyURL t.1 t.2).1)
  simpa [failures, List.filterMap_cons, hv] using hp

/-- The failures of a task list with one task taken out, when that task fails. -/
theorem failures_eraseIdx_some (tasks : List (String × GetResult)) (i : Nat) (link : String)
    (got : GetResult) (linkErr : LinkError) (hg : tasks[i]? = some (link, got))
    (hv : (verifyURL link got).1 = some linkErr) :
    (linkErr :: failures (tasks.eraseIdx i)).Perm (failures tasks) := by
  have hp := (perm_cons_eraseIdx tasks i (link, got) hg).filterMap
    (fun t => (verifyURL t.1 t.2).1)
  simpa [failures, List.filterMap_cons, hv] using hp

/-- Taking out a task that is there shortens the list by one. -/
theorem length_eraseIdx_of_getElem {α : Type} (l : List α) (i : Nat) (x : α)
    (hg : l[i]? = some x) : (l.eraseIdx i).length + 1 = l.length := by
  have := (perm_cons_eraseIdx l i x hg).length_eq
  simpa using this

/-- The number of failures is the number of tasks whose verification fails. -/
theorem failures_length (tasks : List (String × GetResult)) :
    (failures tasks).length = tasks.countP (fun t => (verifyURL t.1 t.2).1.isSome) := by
  induction tasks with
  | nil => rfl
  | cons t ts ih =>
    cases hv : (verifyURL t.1 t.2).1 with
    | none =>
      have : failures (t :: ts) = failures ts := by
        simp [failures, List.filterMap_cons, hv]
      rw [this, ih]
      simp [List.countP_cons, hv]
    | some e =>
      have : failures (t :: ts) = e :: failures ts := by
        simp [failures, List.filterMap_cons, hv]
      rw [this, List.length_cons, ih]
      simp [List.countP_cons, hv]

/-- The invariant holds when the goroutines are launched. -/
theorem FanInv_fanOut (w : Worker) (tasks : List (String × GetResult)) (s0 : MemoryStorage)
    (old : List LinkError) (hjob : s0.Workers w.ID = some old) :
    FanInv w s0 old (failures tasks) (fanOut w tasks s0) := by
  refine ⟨[], ?_, ?_, ?_, ?_, ?_, ?_⟩
  · simpa [fanOut] using hjob
  · simp [fanOut]
  · intro other _
    rfl
  · simp [fanOut]
  · intro h
    simp [fanOut] at h
  · intro h
    simp [fanOut] at h

/-- Every step keeps the invariant. -/
theorem FanInv_step (w : Worker) (s0 : MemoryStorage) (old F : List LinkError)
    (st st1 : ProcState) (e : Event) (hinv : FanInv w s0 old F st)
    (hstep : step w st e = some st1) : FanInv w s0 old F st1 := by
  obtain ⟨appended, hstore, hperm, hother, hcap, hclosed, hret⟩ := hinv
  cases e with
  | finish i =>
    simp only [step] at hstep
    cases hg : st.pending[i]? with
    | none => simp [hg] at hstep
    | some task =>
      obtain ⟨link, got⟩ := task
      have hne : st.pending ≠ [] := by
        intro h
        simp [h] at hg
      have hnc : st.closed = false := by
        cases hc : st.closed with
        | false => rfl
        | true => exact absurd (hclosed hc) hne
      have hnr : st.returned = false := by
        cases hr : st.returned with
        | false => rfl
        | true =>
          have := (hret hr).1
          simp [hnc] at this
      have hlen := length_eraseIdx_of_getElem st.pending i (link, got) hg
      simp only [hg] at hstep
      cases hv : (verifyURL link got).1 with
      | none =>
        simp only [hv, Option.some.injEq] at hstep
        subst hstep
        refine ⟨appended, hstore, ?_, hother, ?_, ?_, ?_⟩
        · refine List.Perm.trans ?_ hperm
          exact List.Perm.append_left _
            (List.Perm.append_left _ (failures_eraseIdx_none _ i link got hg hv))
        · show st.resultPipe.length + (st.pending.eraseIdx i).length ≤ st.capacity
          omega
        · intro h
          have h' : st.closed = true := h
          simp [hnc] at h'
        · intro h
          have h' : st.returned = true := h
          simp [hnr] at h'
      | some linkErr =>
        simp only [hv] at hstep
        by_cases hroom : st.resultPipe.length < st.capacity
        · simp only [hroom, if_true, Option.some.injEq] at hstep
          subst hstep
          refine ⟨appended, hstore, ?_, hother, ?_, ?_, ?_⟩
          · refine List.Perm.trans ?_ hperm
            refine List.Perm.append_left _ ?_
            show ((st.resultPipe ++ [linkErr]) ++ failures (st.pending.eraseIdx i)).Perm
              (st.resultPipe ++ failures st.pending)
            rw [List.append_assoc]
            exact List.Perm.append_left _
              (failures_eraseIdx_some _ i link got linkErr hg hv)
          · show (st.resultPipe ++ [linkErr]).length + (st.pending.eraseIdx i).length
              ≤ st.capacity
            simp only [List.length_append, List.length_singleton]
            omega
          · intro h
            have h' : st.closed = true := h
            simp [hnc] at h'
          · intro h
            have h' : st.returned = true := h
            simp [hnr] at h'
        · simp [hroom] at hstep
  | close =>
    simp only [step] at hstep
    by_cases hc : st.pending.isEmpty ∧ st.closed = false
    · simp only [hc, and_self, if_true, Option.some.injEq] at hstep
      subst hstep
      have hpe : st.pending = [] := List.isEmpty_iff.mp hc.1
      refine ⟨appended, hstore, hperm, hother, hcap, ?_, ?_⟩
      · intro _
        exact hpe
      · intro h
        have h' : st.returned = true := h
        have := (hret h').1
        simp [hc.2] at this
    · rw [if_neg hc] at hstep
      simp at hstep
  | recv =>
    simp only [step] at hstep
    by_cases hr : st.returned = true
    · simp [hr] at hstep
    · rw [if_neg hr] at hstep
      cases hp : st.resultPipe with
      | nil =>
        rw [hp] at hstep
        by_cases hc : st.closed = true
        · simp only [hc, if_true, Option.some.injEq] at hstep
          subst hstep
          refine ⟨appended, hstore, ?_, hother, ?_, ?_, ?_⟩
          · simpa [hp] using hperm
          · simpa [hp] using hcap
          · intro _
            exact hclosed hc
          · intro _
            exact ⟨rfl, rfl⟩
        · simp [hc] at hstep
      | cons result rest =>
        rw [hp] at hstep
        simp only [Option.some.injEq] at hstep
        subst hstep
        have hadd := AddLinkError_present st.storage w.ID result (old ++ appended) hstore
        refine ⟨appended ++ [result], ?_, ?_, ?_, ?_, ?_, ?_⟩
        · show (AddLinkError st.storage w.ID result).1.Workers w.ID = _
          rw [hadd.1, List.append_assoc]
        · show ((appended ++ [result]) ++ (rest ++ failures st.pending)).Perm F
          rw [hp] at hperm
          simpa [List.append_assoc] using hperm
        · intro other hne
          show (AddLinkError st.storage w.ID result).1.Workers other = _
          rw [hadd.2 other hne]
          exact hother other hne
        · show rest.length + st.pending.length ≤ st.capacity
          rw [hp] at hcap
          simp only [List.length_cons] at hcap
          omega
        · exact hclosed
        · intro h
          exact absurd h hr

/-- Every schedule keeps the invariant. -/
theorem FanInv_run (w : Worker) (s0 : MemoryStorage) (old F : List LinkError) :
    ∀ (evs : List Event) (st st1 : ProcState), FanInv w s0 old F st →
      run w st evs = some st1 → FanInv w s0 old F st1
  | [], st, st1, hinv, hrun => by
    simp only [run, Option.some.injEq] at hrun
    subst hrun
    exact hinv
  | e :: es, st, st1, hinv, hrun => by
    simp only [run] at hrun
    cases hs : step w st e with
    | none => simp [hs] at hrun
    | some st2 =>
      simp only [hs] at hrun
      exact FanInv_run w s0 old F es st2 st1 (FanInv_step w s0 old F st st2 e hinv hs) hrun

/-- Under the invariant a pending goroutine can always finish: its send finds room. -/
theorem finish_enabled (w : Worker) (s0 : MemoryStorage) (old F : List LinkError)
    (st : ProcState) (hinv : FanInv w s0 old F st) (i : Nat) (hi : i < st.pending.length) :
    (step w st (.finish i)).isSome = true := by
  obtain ⟨appended, _, _, _, hcap, _, _⟩ := hinv
  have hg : st.pending[i]? = some st.pending[i] := List.getElem?_eq_getElem hi
  have hroom : st.resultPipe.length < st.capacity := by omega
  simp only [step, hg]
  cases hv : (verifyURL st.pending[i].1 st.pending[i].2).1 with
  | none => simp
  | some linkErr => simp [hroom]

/-- Under the invariant a run that has not returned can take a step. -/
theorem progress (w : Worker) (s0 : MemoryStorage) (old F : List LinkError)
    (st : ProcState) (hinv : FanInv w s0 old F st) (hr : st.returned = false) :
    ∃ e st1, step w st e = some st1 := by
  cases hp : st.pending with
  | cons task rest =>
    have hi : 0 < st.pending.length := by simp [hp]
    obtain ⟨st1, h1⟩ := Option.isSome_iff_exists.mp (finish_enabled w s0 old F st hinv 0 hi)
    exact ⟨.finish 0, st1, h1⟩
  | nil =>
    cases hq : st.resultPipe with
    | cons result rest =>
      have h : (step w st .recv).isSome = true := by simp [step, hr, hq]
      obtain ⟨st1, h1⟩ := Option.isSome_iff_exists.mp h
      exact ⟨.recv, st1, h1⟩
    | nil =>
      by_cases hc : st.closed = true
      · have h : (step w st .recv).isSome = true := by simp [step, hr, hq, hc]
        obtain ⟨st1, h1⟩ := Option.isSome_iff_exists.mp h
        exact ⟨.recv, st1, h1⟩
      · have h : (step w st .close).isSome = true := by simp [step, hp, hc]
        obtain ⟨st1, h1⟩ := Option.isSome_iff_exists.mp h
        exact ⟨.close, st1, h1⟩

/-- Every step lowers the measure. -/
theorem stepsLeft_step (w : Worker) (st st1 : ProcState) (e : Event)
    (hstep : step w st e = some st1) : stepsLeft st1 < stepsLeft st := by
  cases e with
  | finish i =>
    simp only [step] at hstep
    cases hg : st.pending[i]? with
    | none => simp [hg] at hstep
    | some task =>
      obtain ⟨link, got⟩ := task
      have hlen := length_eraseIdx_of_getElem st.pending i (link, got) hg
      simp only [hg] at hstep
      cases hv : (verifyURL link got).1 with
      | none =>
        simp only [hv, Option.some.injEq] at hstep
        subst hstep
        simp only [stepsLeft]
        omega
      | some linkErr =>
        simp only [hv] at hstep
        by_cases hroom : st.resultPipe.length < st.capacity
        · simp only [hroom, if_true, Option.some.injEq] at hstep
          subst hstep
          simp only [stepsLeft, List.length_append, List.length_singleton]
          omega
        · simp [hroom] at hstep
  | close =>
    simp only [step] at hstep
    by_cases hc : st.pending.isEmpty ∧ st.closed = false
    · simp only [hc, and_self, if_true, Option.some.injEq] at hstep
      subst hstep
      simp [stepsLeft, hc.2]
    · rw [if_neg hc] at hstep
      simp at hstep
  | recv =>
    simp only [step] at hstep
    by_cases hr : st.returned = true
    · simp [hr] at hstep
    · rw [if_neg hr] at hstep
      cases hp : st.resultPipe with
      | nil =>
        rw [hp] at hstep
        by_cases hc : st.closed = true
        · simp only [hc, if_true, Option.some.injEq] at hstep
          subst hstep
          simp [stepsLeft, hr, hp, hc]
        · simp [hc] at hstep
      | cons result rest =>
        rw [hp] at hstep
        simp only [Option.some.injEq] at hstep
        subst hstep
        simp only [stepsLeft, hp, List.length_cons]
        omega

/-- A schedule is no longer than the measure of the state it starts from. -/
theorem run_length (w : Worker) :
    ∀ (evs : List Event) (st st1 : ProcState), run w st evs = some st1 →
      evs.length + stepsLeft st1 ≤ stepsLeft st
  | [], st, st1, hrun => by
    simp only [run, Option.some.injEq] at hrun
    subst hrun
    simp
  | e :: es, st, st1, hrun => by
    simp only [run] at hrun
    cases hs : step w st e with
    | none => simp [hs] at hrun
    | some st2 =>
      simp only [hs] at hrun
      have h1 := stepsLeft_step w st st2 e hs
      have h2 := run_length w es st2 st1 hrun
      simp only [List.length_cons]
      omega

/-- From a state under the invariant some schedule makes `ProcessURL` return. -/
theorem can_return (w : Worker) (s0 : MemoryStorage) (old F : List LinkError) :
    ∀ (n : Nat) (st : ProcState), stepsLeft st ≤ n → FanInv w s0 old F st →
      ∃ evs st1, run w st evs = some st1 ∧ st1.returned = true
  | 0, st, hn, _ => by
    have hr : st.returned = true := by
      cases h : st.returned with
      | true => rfl
      | false => simp [stepsLeft, h] at hn
    exact ⟨[], st, rfl, hr⟩
  | n + 1, st, hn, hinv => by
    cases hr : st.returned with
    | true => exact ⟨[], st, rfl, hr⟩
    | false =>
      obtain ⟨e, st2, hs⟩ := progress w s0 old F st hinv hr
      have hlt := stepsLeft_step w st st2 e hs
      obtain ⟨evs, st1, hrun, hdone⟩ :=
        can_return w s0 old F n st2 (by omega) (FanInv_step w s0 old F st st2 e hinv hs)
      exact ⟨e :: evs, st1, by simp [run, hs, hrun], hdone⟩

/-- The goroutine launched for the link at position `i` carries that link and the
outcome `linkGet i`. -/
theorem linkTasks_getElem (linkGet : Nat → GetResult) (links : List String) (i : Nat)
    (link : String) (h : links[i]? = some link) :
    (linkTasks linkGet links)[i]? = some (link, linkGet i) := by
  simp [linkTasks, List.getElem?_enum, h]

/-- One goroutine is launched per link, in the order of the links. -/
theorem linkTasks_map_fst (linkGet : Nat → GetResult) (links : List String) :
    (linkTasks linkGet links).map Prod.fst = links := by
  have h : (Prod.fst ∘ fun p : Nat × String => (p.2, linkGet p.1)) = Prod.snd := rfl
  simp only [linkTasks, List.map_map, h, List.enum_map_snd]

/-- As many goroutines are launched as there are links. -/
theorem linkTasks_length (linkGet : Nat → GetResult) (links : List String) :
    (linkTasks linkGet links).length = links.length := by
  simp [linkTasks]

/-- The failures of the launched goroutines are those of the links, position by
position. -/
theorem failures_linkTasks (linkGet : Nat → GetResult) (links : List String) :
    failures (linkTasks linkGet links) =
      links.enum.filterMap (fun p => (verifyURL p.2 (linkGet p.1)).1) := by
  simp only [failures, linkTasks, List.filterMap_map]
  rfl

/-- The number of failing goroutines is the number of failing links. -/
theorem countP_linkTasks (linkGet : Nat → GetResult) (links : List String) :
    (linkTasks linkGet links).countP (fun t => (verifyURL t.1 t.2).1.isSome) =
      links.enum.countP (fun p => (verifyURL p.2 (linkGet p.1)).1.isSome) := by
  simp only [linkTasks, List.countP_map]
  rfl

/-- The check invariant holds when the goroutines are launched. -/
theorem FetchInv_fanOut (w : Worker) (linkGet : Nat → GetResult) (links : List String)
    (s0 : MemoryStorage) : FetchInv w links (fanOut w (linkTasks linkGet links) s0) := by
  refine ⟨[], rfl, ?_⟩
  show ([] ++ (linkTasks linkGet links).map Prod.fst).Perm links
  rw [List.nil_append, linkTasks_map_fst]

/-- Every step keeps the check invariant. -/
theorem FetchInv_step (w : Worker) (L : List String) (st st1 : ProcState) (e : Event)
    (hinv : FetchInv w L st) (hstep : step w st e = some st1) : FetchInv w L st1 := by
  obtain ⟨checked, hf, hperm⟩ := hinv
  cases e with
  | finish i =>
    simp only [step] at hstep
    cases hg : st.pending[i]? with
    | none => simp [hg] at hstep
    | some task =>
      obtain ⟨link, got⟩ := task
      have hp := (perm_cons_eraseIdx st.pending i (link, got) hg).map Prod.fst
      simp only [List.map_cons] at hp
      have hnew : ((checked ++ [link]) ++ (st.pending.eraseIdx i).map Prod.fst).Perm L := by
        rw [List.append_assoc]
        exact (List.Perm.append_left _ hp).trans hperm
      simp only [hg] at hstep
      cases hv : (verifyURL link got).1 with
      | none =>
        simp only [hv, Option.some.injEq] at hstep
        subst hstep
        exact ⟨checked ++ [link], by simp [hf], hnew⟩
      | some linkErr =>
        simp only [hv] at hstep
        by_cases hroom : st.resultPipe.length < st.capacity
        · simp only [hroom, if_true, Option.some.injEq] at hstep
          subst hstep
          exact ⟨checked ++ [link], by simp [hf], hnew⟩
        · simp [hroom] at hstep
  | close =>
    simp only [step] at hstep
    by_cases hc : st.pending.isEmpty ∧ st.closed = false
    · simp only [hc, and_self, if_true, Option.some.injEq] at hstep
      subst hstep
      exact ⟨checked, hf, hperm⟩
    · rw [if_neg hc] at hstep
      simp at hstep
  | recv =>
    simp only [step] at hstep
    by_cases hr : st.returned = true
    · simp [hr] at hstep
    · rw [if_neg hr] at hstep
      cases hp : st.resultPipe with
      | nil =>
        rw [hp] at hstep
        by_cases hc : st.closed = true
        · simp only [hc, if_true, Option.some.injEq] at hstep
          subst hstep
          exact ⟨checked, hf, hperm⟩
        · simp [hc] at hstep
      | cons result rest =>
        rw [hp] at hstep
        simp only [Option.some.injEq] at hstep
        subst hstep
        exact ⟨checked, hf, hperm⟩

/-- Every schedule keeps the check invariant. -/
theorem FetchInv_run (w : Worker) (L : List String) :
    ∀ (evs : List Event) (st st1 : ProcState), FetchInv w L st →
      run w st evs = some st1 → FetchInv w L st1
  | [], st, st1, hinv, hrun => by
    simp only [run, Option.some.injEq] at hrun
    subst hrun
    exact hinv
  | e :: es, st, st1, hinv, hrun => by
    simp only [run] at hrun
    cases hs : step w st e with
    | none => simp [hs] at hrun
    | some st2 =>
      simp only [hs] at hrun
      exact FetchInv_run w L es st2 st1 (FetchInv_step w L st st2 e hinv hs) hrun

/-- After a successful root check `ProcessURL` is the fan-out over the scraped links. -/
theorem ProcessURL_success (lib : NetURL) (w : Worker) (resp : Response)
    (linkGet : Nat → GetResult) (storage : MemoryStorage)
    (h1 : 200 ≤ resp.StatusCode) (h2 : resp.StatusCode < 300) :
    ProcessURL lib w (.response resp) linkGet storage =
      fanOut w (linkTasks linkGet (scrapeLinks lib w.urlBasePath resp.Body)) storage := by
  have hc : resp.StatusCode ≥ 200 ∧ resp.StatusCode < 300 := ⟨h1, h2⟩
  simp [ProcessURL, verifyURL, hc]

/-! ## The job store -/

/-- C6: `AddWorker` returns no error exactly when the id is absent; then the id maps to
the empty list, `GetWorkerResults` on it succeeds with the empty list and every other
job is unchanged. When the id is present it fails with `DuplicateWorkerErr`, the store
is unchanged and the job still has its accumulated results. -/
theorem AddWorker_contract (s : MemoryStorage) (workerID : String) :
    ((AddWorker s workerID).2 = none ↔ s.Workers workerID = none) ∧
    (s.Workers workerID = none →
      (AddWorker s workerID).1.Workers workerID = some [] ∧
      GetWorkerResults (AddWorker s workerID).1 workerID = ([], none) ∧
      ∀ other, other ≠ workerID →
        (AddWorker s workerID).1.Workers other = s.Workers other) ∧
    (∀ results, s.Workers workerID = some results →
      (AddWorker s workerID).2 = some StorageErr.DuplicateWorkerErr ∧
      (AddWorker s workerID).1 = s ∧
      GetWorkerResults (AddWorker s workerID).1 workerID = (results, none)) := by
  refine ⟨?_, ?_, ?_⟩
  · cases h : s.Workers workerID <;> simp [AddWorker, h]
  · intro h
    refine ⟨?_, ?_, ?_⟩
    · simp [AddWorker, h]
    · simp [AddWorker, GetWorkerResults, h]
    · intro other hne
      simp [AddWorker, h, hne]
  · intro results h
    simp [AddWorker, GetWorkerResults, h]

/-- Witness of C6: a fresh id on the empty store, and a duplicate on a store that has it. -/
theorem AddWorker_contract_witness :
    (AddWorker NewMemoryStorage "job-1").1.Workers "job-1" = some [] ∧
    (AddWorker sampleStore "job-1").2 = some StorageErr.DuplicateWorkerErr ∧
    (AddWorker sampleStore "job-1").1 = sampleStore :=
  ⟨((AddWorker_contract NewMemoryStorage "job-1").2.1 rfl).1,
   ((AddWorker_contract sampleStore "job-1").2.2 _ rfl).1,
   ((AddWorker_contract sampleStore "job-1").2.2 _ rfl).2.1⟩

/-- C7: on a present id `RemoveWorker` succeeds and leaves every other job unchanged;
afterwards `GetWorkerResults` and a second `RemoveWorker` on that id fail with
`WorkerNotFoundErr`, the second removal leaving the store unchanged. On an absent id
both fail with `WorkerNotFoundErr` and the store is unchanged. -/
theorem RemoveWorker_contract (s : MemoryStorage) (workerID : String) :
    (∀ results, s.Workers workerID = some results →
      (RemoveWorker s workerID).2 = none ∧
      (∀ other, other ≠ workerID →
        (RemoveWorker s workerID).1.Workers other = s.Workers other) ∧
      GetWorkerResults (RemoveWorker s workerID).1 workerID =
        ([], some StorageErr.WorkerNotFoundErr) ∧
      RemoveWorker (RemoveWorker s workerID).1 workerID =
        ((RemoveWorker s workerID).1, some StorageErr.WorkerNotFoundErr)) ∧
    (s.Workers workerID = none →
      RemoveWorker s workerID = (s, some StorageErr.WorkerNotFoundErr) ∧
      GetWorkerResults s workerID = ([], some StorageErr.WorkerNotFoundErr)) := by
  refine ⟨?_, ?_⟩
  · intro results h
    refine ⟨?_, ?_, ?_, ?_⟩
    · simp [RemoveWorker, h]
    · intro other hne
      simp [RemoveWorker, h, hne]
    · simp [RemoveWorker, GetWorkerResults, h]
    · simp [RemoveWorker, h]
  · intro h
    simp [RemoveWorker, GetWorkerResults, h]

/-- Witness of C7: removing the job of the sample store, and an id never created. -/
theorem RemoveWorker_contract_witness :
    (RemoveWorker sampleStore "job-1").2 = none ∧
    GetWorkerResults (RemoveWorker sampleStore "job-1").1 "job-1" =
      ([], some StorageErr.WorkerNotFoundErr) ∧
    RemoveWorker NewMemoryStorage "totally_not_a_valid_worker_id" =
      (NewMemoryStorage, some StorageErr.WorkerNotFoundErr) :=
  ⟨((RemoveWorker_contract sampleStore "job-1").1 _ rfl).1,
   ((RemoveWorker_contract sampleStore "job-1").1 _ rfl).2.2.1,
   ((RemoveWorker_contract NewMemoryStorage "totally_not_a_valid_worker_id").2 rfl).1⟩

/-- C8: `AddLinkError` returns no error exactly when the id is present; then
`GetWorkerResults` on the id gives the previous list followed by the new record and
every other job is unchanged. When the id is absent it fails with `WorkerNotFoundErr`
and the store is unchanged, so no entry is created. -/
theorem AddLinkError_contract (s : MemoryStorage) (workerID : String) (linkError : LinkError) :
    ((AddLinkError s workerID linkError).2 = none ↔ s.Workers workerID ≠ none) ∧
    (∀ results, s.Workers workerID = some results →
      GetWorkerResults (AddLinkError s workerID linkError).1 workerID =
        (results ++ [linkError], none) ∧
      ∀ other, other ≠ workerID →
        (AddLinkError s workerID linkError).1.Workers other = s.Workers other) ∧
    (s.Workers workerID = none →
      AddLinkError s workerID linkError = (s, some StorageErr.WorkerNotFoundErr) ∧
      (AddLinkError s workerID linkError).1.Workers workerID = none) := by
  refine ⟨?_, ?_, ?_⟩
  · cases h : s.Workers workerID <;> simp [AddLinkError, h]
  · intro results h
    refine ⟨?_, ?_⟩
    · simp [AddLinkError, GetWorkerResults, h]
    · intro other hne
      simp [AddLinkError, h, hne]
  · intro h
    simp [AddLinkError, h]

/-- Witness of C8: a second failure appended to the job of the sample store, and an
append to an id that is absent. -/
theorem AddLinkError_contract_witness :
    GetWorkerResults (AddLinkError sampleStore "job-1" ⟨"https://example.com/slow", 0, true⟩).1
        "job-1" =
      ([⟨"https://example.com/nope", 404, false⟩] ++ [⟨"https://example.com/slow", 0, true⟩],
        none) ∧
    AddLinkError sampleStore "job-2" ⟨"https://example.com/slow", 0, true⟩ =
      (sampleStore, some StorageErr.WorkerNotFoundErr) :=
  ⟨((AddLinkError_contract sampleStore "job-1" ⟨"https://example.com/slow", 0, true⟩).2.1
      _ rfl).1,
   ((AddLinkError_contract sampleStore "job-2" ⟨"https://example.com/slow", 0, true⟩).2.2
      rfl).1⟩

/-- C9, as stated, fails: on the empty store the error of an append to a job that was
created and then removed is the same value as the error of an append to an id that was
never created. -/
theorem AddLinkError_after_remove_not_distinct :
    ¬ ((AddLinkError (RemoveWorker (AddWorker NewMemoryStorage "job-1").1 "job-1").1
          "job-1" ⟨"https://example.com/nope", 404, false⟩).2 ≠
       (AddLinkError NewMemoryStorage "job-1" ⟨"https://example.com/nope", 404, false⟩).2) := by
  simp [AddLinkError, RemoveWorker, AddWorker, NewMemoryStorage]

/-- C9, amended: an append to a job that was created and then removed fails with
`WorkerNotFoundErr`, the very error an append to an id that was never created (absent
from a store `t`) fails with; the failure differs from success and the store is left
unchanged. -/
theorem AddLinkError_after_remove_same_error (s t : MemoryStorage) (workerID : String)
    (linkError : LinkError) (hnever : t.Workers workerID = none) :
    (AddLinkError (RemoveWorker (AddWorker s workerID).1 workerID).1 workerID linkError).2 =
      some StorageErr.WorkerNotFoundErr ∧
    (AddLinkError t workerID linkError).2 = some StorageErr.WorkerNotFoundErr ∧
    (AddLinkError (RemoveWorker (AddWorker s workerID).1 workerID).1 workerID linkError).2 ≠
      none ∧
    (AddLinkError (RemoveWorker (AddWorker s workerID).1 workerID).1 workerID linkError).1 =
      (RemoveWorker (AddWorker s workerID).1 workerID).1 := by
  have habsent : (RemoveWorker (AddWorker s workerID).1 workerID).1.Workers workerID = none := by
    cases h : s.Workers workerID <;> simp [AddWorker, RemoveWorker, h]
  have h1 := (AddLinkError_absent _ workerID linkError habsent)
  have h2 := (AddLinkError_absent t workerID linkError hnever)
  rw [h1, h2]
  simp

/-- Witness of C9 amended: the job of the sample store re-created, removed, then
appended to, against the empty store. -/
theorem AddLinkError_after_remove_same_error_witness :
    (AddLinkError (RemoveWorker (AddWorker sampleStore "job-1").1 "job-1").1 "job-1"
        ⟨"https://example.com/nope", 404, false⟩).2 = some StorageErr.WorkerNotFoundErr ∧
    (AddLinkError NewMemoryStorage "job-1" ⟨"https://example.com/nope", 404, false⟩).2 =
      some StorageErr.WorkerNotFoundErr :=
  ⟨(AddLinkError_after_remove_same_error sampleStore NewMemoryStorage "job-1"
      ⟨"https://example.com/nope", 404, false⟩ rfl).1,
   (AddLinkError_after_remove_same_error sampleStore NewMemoryStorage "job-1"
      ⟨"https://example.com/nope", 404, false⟩ rfl).2.1⟩

/-! ## URL validation -/

/-- C4: an input whose parsed URL has an empty scheme or an empty host is refused by
`validateURL` with the "must be an absolute url" error, no URL being returned; a
job-creation request carrying such a url (a missing url decodes to the empty string)
is answered 400, the store is untouched and nothing is dispatched. -/
theorem validateURL_not_absolute (lib : NetURL) (input : String) (u : URL)
    (hparse : lib.Parse input = .ok u) (h : u.Scheme = "" ∨ u.Host = "") :
    validateURL lib input = .error (errNotAbsolute input) ∧
    ∀ (Decode : Worker → Worker × Option String) (uuidNew : String) (DB : MemoryStorage)
      (w1 : Worker), Decode Worker.zero = (w1, none) → w1.URL = input →
        (Create lib Decode uuidNew DB).status = 400 ∧
        (Create lib Decode uuidNew DB).DB = DB ∧
        (Create lib Decode uuidNew DB).dispatched = none := by
  have hv : validateURL lib input = .error (errNotAbsolute input) := by
    simp [validateURL, hparse, h]
  refine ⟨hv, ?_⟩
  intro Decode uuidNew DB w1 hdec hurl
  have hv2 : ∀ w2 : Worker, w2.URL = input →
      validateURL lib w2.URL = .error (errNotAbsolute input) := by
    intro w2 h2
    rw [h2]
    exact hv
  by_cases hc : w1.LinkTimeout ≤ 0 ∨ w1.LinkTimeout > MaximumTimeoutValue
  · simp [Create, ValidateWorkerRequest, hdec, hc, hurl, hv]
  · simp [Create, ValidateWorkerRequest, hdec, hc, hurl, hv]

/-- Witness of C4: the url of the handler test, and a request without url. -/
theorem validateURL_not_absolute_witness :
    validateURL sampleLib "this_is_not_a_valid_url" =
      .error (errNotAbsolute "this_is_not_a_valid_url") ∧
    (Create sampleLib (sampleDecode "this_is_not_a_valid_url" 0) "id-1" NewMemoryStorage).status
      = 400 ∧
    (Create sampleLib (sampleDecode "" 0) "id-1" NewMemoryStorage).status = 400 :=
  ⟨(validateURL_not_absolute sampleLib "this_is_not_a_valid_url"
      ⟨"", "", "", "this_is_not_a_valid_url", "", ""⟩ rfl (Or.inl rfl)).1,
   ((validateURL_not_absolute sampleLib "this_is_not_a_valid_url"
      ⟨"", "", "", "this_is_not_a_valid_url", "", ""⟩ rfl (Or.inl rfl)).2
      (sampleDecode "this_is_not_a_valid_url" 0) "id-1" NewMemoryStorage _ rfl rfl).1,
   ((validateURL_not_absolute sampleLib "" ⟨"", "", "", "", "", ""⟩ rfl (Or.inl rfl)).2
      (sampleDecode "" 0) "id-1" NewMemoryStorage _ rfl rfl).1⟩

/-- C5, as stated, fails: a URL without scheme, and a URL with scheme "mailto" and no
host, have a scheme that is neither http nor https, yet `validateURL` answers "must be
an absolute url", which is not the "must use http or https" error. -/
theorem validateURL_unsupported_scheme_counterexample :
    (sampleLib.Parse "this_is_not_a_valid_url" =
        .ok ⟨"", "", "", "this_is_not_a_valid_url", "", ""⟩ ∧
      validateURL sampleLib "this_is_not_a_valid_url" ≠
        .error (errUnsupportedScheme "this_is_not_a_valid_url")) ∧
    (sampleLib.Parse "mailto:a@example.com" = .ok ⟨"mailto", "a@example.com", "", "", "", ""⟩ ∧
      validateURL sampleLib "mailto:a@example.com" ≠
        .error (errUnsupportedScheme "mailto:a@example.com")) := by
  refine ⟨⟨rfl, ?_⟩, ⟨rfl, ?_⟩⟩
  · simp [validateURL, sampleLib, errNotAbsolute, errUnsupportedScheme]
  · simp [validateURL, sampleLib, errNotAbsolute, errUnsupportedScheme]

/-- C5, amended: an input whose parsed URL has a non-empty scheme and a non-empty host,
the scheme being neither "http" nor "https", is refused by `validateURL` with the
"must use http or https" error. -/
theorem validateURL_unsupported_scheme (lib : NetURL) (input : String) (u : URL)
    (hparse : lib.Parse input = .ok u) (hscheme : u.Scheme ≠ "") (hhost : u.Host ≠ "")
    (hhttp : u.Scheme ≠ "http") (hhttps : u.Scheme ≠ "https") :
    validateURL lib input = .error (errUnsupportedScheme input) := by
  simp [validateURL, hparse, hscheme, hhost, hhttp, hhttps]

/-- Witness of C5 amended: an ftp URL. -/
theorem validateURL_unsupported_scheme_witness :
    validateURL sampleLib "ftp://example.com/file" =
      .error (errUnsupportedScheme "ftp://example.com/file") :=
  validateURL_unsupported_scheme sampleLib "ftp://example.com/file"
    ⟨"ftp", "", "example.com", "/file", "", ""⟩ rfl (by decide) (by decide) (by decide)
    (by decide)

/-! ## Link verification -/

/-- C2: `verifyURL` returns no failure for a response with status in [200,300); a
failure with the target, the status and no timeout flag for any other response; a
failure with the target, the timeout flag and status 0 for a transport timeout; a
failure with the target, status 0 and no timeout flag for any other transport error.
No returned failure has both a non-zero status and the timeout flag. -/
theorem verifyURL_classification (destination : String) :
    (∀ resp : Response, 200 ≤ resp.StatusCode → resp.StatusCode < 300 →
      verifyURL destination (.response resp) = (none, some resp)) ∧
    (∀ resp : Response, ¬ (200 ≤ resp.StatusCode ∧ resp.StatusCode < 300) →
      (verifyURL destination (.response resp)).1 =
        some ⟨destination, resp.StatusCode, false⟩) ∧
    (verifyURL destination (.urlError true)).1 = some ⟨destination, 0, true⟩ ∧
    (verifyURL destination (.urlError false)).1 = some ⟨destination, 0, false⟩ ∧
    (verifyURL destination .otherError).1 = some ⟨destination, 0, false⟩ ∧
    (∀ (got : GetResult) (linkErr : LinkError), (verifyURL destination got).1 = some linkErr →
      linkErr.URL = destination ∧ ¬ (linkErr.Status ≠ 0 ∧ linkErr.Timeout = true)) := by
  refine ⟨?_, ?_, rfl, rfl, rfl, ?_⟩
  · intro resp h1 h2
    simp [verifyURL, h1, h2]
  · intro resp h
    have h' : ¬ (resp.StatusCode ≥ 200 ∧ resp.StatusCode < 300) := h
    simp only [verifyURL, h', if_false]
  · intro got linkErr h
    cases got with
    | response resp =>
      by_cases hc : resp.StatusCode ≥ 200 ∧ resp.StatusCode < 300
      · simp [verifyURL, hc] at h
      · simp only [verifyURL, hc, if_false, Option.some.injEq] at h
        subst h
        simp
    | urlError timeout =>
      simp only [verifyURL, Option.some.injEq] at h
      subst h
      simp
    | otherError =>
      simp only [verifyURL, Option.some.injEq] at h
      subst h
      simp

/-- Witness of C2: a 204, a 404 and a 301 response. -/
theorem verifyURL_classification_witness :
    verifyURL "https://example.com/a" (.response ⟨204, []⟩) = (none, some ⟨204, []⟩) ∧
    (verifyURL "https://example.com/a" (.response ⟨404, []⟩)).1 =
      some ⟨"https://example.com/a", 404, false⟩ ∧
    (verifyURL "https://example.com/a" (.response ⟨301, []⟩)).1 =
      some ⟨"https://example.com/a", 301, false⟩ :=
  ⟨(verifyURL_classification "https://example.com/a").1 ⟨204, []⟩ (by decide) (by decide),
   (verifyURL_classification "https://example.com/a").2.1 ⟨404, []⟩ (by decide),
   (verifyURL_classification "https://example.com/a").2.1 ⟨301, []⟩ (by decide)⟩

/-! ## Request validation -/

/-- C3: when the job is in the store with an empty list and the check of the root URL
yields a failure, `ProcessURL` has returned with exactly that failure as the job's only
record (for a timeout: the root URL with the timeout flag), every other job unchanged;
`verifyURL` was called on the root only, no link goroutine exists and no further step
can happen. -/
theorem ProcessURL_root_failure (lib : NetURL) (w : Worker) (rootGet : GetResult)
    (linkGet : Nat → GetResult) (storage : MemoryStorage) (linkErr : LinkError)
    (hjob : storage.Workers w.ID = some [])
    (hfail : (verifyURL w.URL rootGet).1 = some linkErr) :
    (ProcessURL lib w rootGet linkGet storage).returned = true ∧
    (ProcessURL lib w rootGet linkGet storage).storage.Workers w.ID = some [linkErr] ∧
    (GetWorkerResults (ProcessURL lib w rootGet linkGet storage).storage w.ID).1.length = 1 ∧
    (∀ other, other ≠ w.ID →
      (ProcessURL lib w rootGet linkGet storage).storage.Workers other =
        storage.Workers other) ∧
    (ProcessURL lib w rootGet linkGet storage).fetched = [w.URL] ∧
    (ProcessURL lib w rootGet linkGet storage).pending = [] ∧
    (ProcessURL lib w rootGet linkGet storage).resultPipe = [] ∧
    (∀ e, step w (ProcessURL lib w rootGet linkGet storage) e = none) ∧
    (rootGet = .urlError true → linkErr = ⟨w.URL, 0, true⟩) := by
  have hP : ProcessURL lib w rootGet linkGet storage =
      ⟨(AddLinkError storage w.ID linkErr).1, [w.URL], [], [], 0, true, true⟩ := by
    unfold ProcessURL
    rcases hv : verifyURL w.URL rootGet with ⟨failure, resp⟩
    rw [hv] at hfail
    simp only at hfail
    subst hfail
    rfl
  have hadd := AddLinkError_present storage w.ID linkErr [] hjob
  rw [hP]
  refine ⟨rfl, ?_, ?_, ?_, rfl, rfl, rfl, ?_, ?_⟩
  · simpa using hadd.1
  · have h1 : (AddLinkError storage w.ID linkErr).1.Workers w.ID = some [linkErr] := by
      simpa using hadd.1
    simp [GetWorkerResults, h1]
  · intro other hne
    exact hadd.2 other hne
  · intro e
    cases e with
    | finish i => simp [step]
    | close => simp [step]
    | recv => simp [step]
  · intro hto
    rw [hto] at hfail
    simp only [verifyURL, Option.some.injEq] at hfail
    exact hfail.symm

/-- Witness of C3: the root of the sample worker times out. -/
theorem ProcessURL_root_failure_witness :
    (ProcessURL sampleLib sampleWorker (.urlError true) (fun _ => .otherError)
        (AddWorker NewMemoryStorage "job-1").1).storage.Workers "job-1" =
      some [⟨"https://example.com", 0, true⟩] ∧
    (GetWorkerResults (ProcessURL sampleLib sampleWorker (.urlError true)
        (fun _ => .otherError) (AddWorker NewMemoryStorage "job-1").1).storage
        "job-1").1.length = 1 :=
  ⟨(ProcessURL_root_failure sampleLib sampleWorker (.urlError true) (fun _ => .otherError)
      (AddWorker NewMemoryStorage "job-1").1 ⟨"https://example.com", 0, true⟩ rfl rfl).2.1,
   (ProcessURL_root_failure sampleLib sampleWorker (.urlError true) (fun _ => .otherError)
      (AddWorker NewMemoryStorage "job-1").1 ⟨"https://example.com", 0, true⟩ rfl rfl).2.2.1⟩

/-- C1: after a successful root check `ProcessURL` is the fan-out over the scraped
links. Let a run of the fan-out start for the links `links`, the goroutine of the link
at position `i` getting the outcome `linkGet i`, for a job that is in the store. At the
start one goroutine per link is pending, in the order of the links, each with its own
link. For any schedule: it has at most `2 * N + 2` steps, a pending goroutine can always
finish (its send never blocks), a run that has not returned can always go on and some
continuation returns. Once `ProcessURL` has returned, the job holds its previous records
followed by a rearrangement of the failures of the failing links, one per failing
position (a link occurring twice counts twice), none for a link that succeeds and
nothing for zero links; `verifyURL` was called on the root and then once per link
position; every other job is unchanged. -/
theorem ProcessURL_fan_in (w : Worker) (links : List String) (linkGet : Nat → GetResult)
    (storage : MemoryStorage) (old : List LinkError)
    (hjob : storage.Workers w.ID = some old) :
    (∀ (lib : NetURL) (resp : Response),
      200 ≤ resp.StatusCode → resp.StatusCode < 300 →
      ProcessURL lib w (.response resp) linkGet storage =
        fanOut w (linkTasks linkGet (scrapeLinks lib w.urlBasePath resp.Body)) storage) ∧
    (∀ start : ProcState,
      (start = fanOut w (linkTasks linkGet links) storage ∨
        ∃ (lib : NetURL) (resp : Response),
          200 ≤ resp.StatusCode ∧ resp.StatusCode < 300 ∧
          scrapeLinks lib w.urlBasePath resp.Body = links ∧
          start = ProcessURL lib w (.response resp) linkGet storage) →
      (start.pending.map Prod.fst = links ∧
        (∀ (i : Nat) (link : String), links[i]? = some link →
          start.pending[i]? = some (link, linkGet i)) ∧
        start.fetched = [w.URL] ∧ start.resultPipe = [] ∧
        start.capacity = links.length ∧ start.closed = false ∧ start.returned = false ∧
        start.storage = storage) ∧
      ∀ (evs : List Event) (st : ProcState), run w start evs = some st →
        evs.length ≤ 2 * links.length + 2 ∧
        (∀ i, i < st.pending.length → (step w st (.finish i)).isSome = true) ∧
        (st.returned = false → ∃ e st1, step w st e = some st1) ∧
        (∃ evs1 st1, run w st evs1 = some st1 ∧ st1.returned = true) ∧
        (st.returned = true →
          ∃ (appended : List LinkError) (checked : List String),
            st.storage.Workers w.ID = some (old ++ appended) ∧
            appended.Perm (links.enum.filterMap (fun p => (verifyURL p.2 (linkGet p.1)).1)) ∧
            appended.length =
              links.enum.countP (fun p => (verifyURL p.2 (linkGet p.1)).1.isSome) ∧
            (∀ linkErr, linkErr ∈ appended →
              ∃ (i : Nat) (link : String), links[i]? = some link ∧
                (verifyURL link (linkGet i)).1 = some linkErr) ∧
            (links = [] → appended = []) ∧
            st.fetched = w.URL :: checked ∧ checked.Perm links ∧
            (∀ other, other ≠ w.ID → st.storage.Workers other = storage.Workers other))) := by
  refine ⟨?_, ?_⟩
  · intro lib resp h1 h2
    exact ProcessURL_success lib w resp linkGet storage h1 h2
  · intro start hstart
    have hs : start = fanOut w (linkTasks linkGet links) storage := by
      rcases hstart with h | ⟨lib, resp, h1, h2, hl, h⟩
      · exact h
      · rw [h, ProcessURL_success lib w resp linkGet storage h1 h2, hl]
    subst hs
    refine ⟨⟨linkTasks_map_fst linkGet links, ?_, rfl, rfl, ?_, rfl, rfl, rfl⟩, ?_⟩
    · intro i link hi
      exact linkTasks_getElem linkGet links i link hi
    · exact linkTasks_length linkGet links
    intro evs st hrun
    have hinv0 := FanInv_fanOut w (linkTasks linkGet links) storage old hjob
    have hinv := FanInv_run w storage old _ evs _ st hinv0 hrun
    have hfet := FetchInv_run w links evs _ st (FetchInv_fanOut w linkGet links storage) hrun
    have hlen := run_length w evs _ st hrun
    have hm0 : stepsLeft (fanOut w (linkTasks linkGet links) storage) =
        2 * links.length + 2 := by
      simp [stepsLeft, fanOut, linkTasks_length]
    refine ⟨by omega, ?_, ?_, ?_, ?_⟩
    · intro i hi
      exact finish_enabled w storage old _ st hinv i hi
    · intro hr
      exact progress w storage old _ st hinv hr
    · exact can_return w storage old _ (stepsLeft st) st (Nat.le_refl _) hinv
    · intro hr
      obtain ⟨appended, hstore, hperm, hother, _, hclosed, hret⟩ := hinv
      obtain ⟨checked, hf, hchk⟩ := hfet
      obtain ⟨hc, hq⟩ := hret hr
      have hp := hclosed hc
      have hperm0 : appended.Perm (failures (linkTasks linkGet links)) := by
        simpa [hq, hp, failures] using hperm
      have hperm1 : appended.Perm
          (links.enum.filterMap (fun p => (verifyURL p.2 (linkGet p.1)).1)) := by
        rw [← failures_linkTasks]
        exact hperm0
      refine ⟨appended, checked, hstore, hperm1, ?_, ?_, ?_, hf, ?_, hother⟩
      · rw [hperm0.length_eq, failures_length, countP_linkTasks]
      · intro linkErr hmem
        have hmem1 := hperm1.mem_iff.mp hmem
        simp only [List.mem_filterMap] at hmem1
        obtain ⟨⟨i, link⟩, hin, hv⟩ := hmem1
        exact ⟨i, link, List.mk_mem_enum_iff_getElem?.mp hin, hv⟩
      · intro ht
        rw [ht] at hperm1
        exact List.Perm.eq_nil (by simpa using hperm1)
      · simpa [hp] using hchk

/-- Witness of C1: four links, three of which fail (one of them twice), drained under a
schedule in which the timed-out link is published first; and a root page without links,
through `ProcessURL`. -/
theorem ProcessURL_fan_in_witness :
    (∃ st, run sampleWorker (fanOut sampleWorker (linkTasks sampleLinkGet sampleLinks)
        (AddWorker NewMemoryStorage "job-1").1) sampleSchedule = some st ∧
      st.returned = true ∧
      st.storage.Workers "job-1" =
        some [⟨"https://example.com/slow", 0, true⟩, ⟨"https://example.com/nope", 404, false⟩,
          ⟨"https://example.com/nope", 404, false⟩] ∧
      ∃ (appended : List LinkError) (checked : List String),
        st.storage.Workers "job-1" = some ([] ++ appended) ∧
        appended.Perm
          (sampleLinks.enum.filterMap (fun p => (verifyURL p.2 (sampleLinkGet p.1)).1)) ∧
        appended.length = 3 ∧
        st.fetched = "https://example.com" :: checked ∧ checked.Perm sampleLinks) ∧
    (∃ st, run sampleWorker (ProcessURL sampleLib sampleWorker (.response ⟨200, []⟩)
        sampleLinkGet (AddWorker NewMemoryStorage "job-1").1) [.close, .recv] = some st ∧
      st.returned = true ∧
      ∃ appended : List LinkError,
        st.storage.Workers "job-1" = some ([] ++ appended) ∧ appended = []) := by
  have hrun : ∃ st, run sampleWorker (fanOut sampleWorker (linkTasks sampleLinkGet sampleLinks)
      (AddWorker NewMemoryStorage "job-1").1) sampleSchedule = some st ∧
      st.returned = true ∧
      st.storage.Workers "job-1" =
        some [⟨"https://example.com/slow", 0, true⟩, ⟨"https://example.com/nope", 404, false⟩,
          ⟨"https://example.com/nope", 404, false⟩] :=
    ⟨_, rfl, rfl, rfl⟩
  have hrun0 : ∃ st, run sampleWorker (ProcessURL sampleLib sampleWorker
      (.response ⟨200, []⟩) sampleLinkGet (AddWorker NewMemoryStorage "job-1").1)
      [.close, .recv] = some st ∧ st.returned = true :=
    ⟨_, rfl, rfl⟩
  refine ⟨?_, ?_⟩
  · obtain ⟨st, h1, h2, h3⟩ := hrun
    obtain ⟨appended, checked, ha, hb, hc, _, _, hf, hg, _⟩ :=
      (((ProcessURL_fan_in sampleWorker sampleLinks sampleLinkGet
        (AddWorker NewMemoryStorage "job-1").1 [] rfl).2 _ (Or.inl rfl)).2
        sampleSchedule st h1).2.2.2.2 h2
    exact ⟨st, h1, h2, h3, appended, checked, ha, hb, hc, hf, hg⟩
  · obtain ⟨st, h1, h2⟩ := hrun0
    obtain ⟨appended, checked, ha, _, _, _, he, _⟩ :=
      (((ProcessURL_fan_in sampleWorker [] sampleLinkGet
        (AddWorker NewMemoryStorage "job-1").1 [] rfl).2 _
        (Or.inr ⟨sampleLib, ⟨200, []⟩, by decide, by decide, rfl, rfl⟩)).2
        [.close, .recv] st h1).2.2.2.2 h2
    exact ⟨st, h1, h2, appended, ha, he rfl⟩

end LinkChecker
